import Mathlib

/-
Shallow embedding of src/kaggle/common/config.py (class Config).

A Config instance is modelled by its attribute dictionary `__dict__`,
an association list from attribute names to Python values; the class
methods are a fixed name set consulted by hasattr/getattr. File system
access is modelled by a function from paths to file contents. The
possibility that an operation raises a Python exception outward is
modelled by an Except result.
-/

namespace KaggleConfig

/-- Python values as they occur in this program: JSON-decodable data
(json.load produces None, bool, int, str, list, dict; floats do not occur
in any claim and are elided) plus bound methods reachable via getattr. -/
inductive Value where
  | none
  | bool (b : Bool)
  | int (n : Int)
  | str (s : String)
  | list (xs : List Value)
  | dict (kvs : List (String × Value))
  | method (name : String)

/-- `type(v) == dict` -/
def Value.isDict : Value → Bool
  | .dict _ => true
  | _ => false

/-- The attribute dictionary `self.__dict__` of a Config instance:
insertion-ordered association list with (in all reachable states) unique
keys. Dict keys are strings: JSON object keys are strings, and
update_from_dict applies str() to each key, which is the identity there. -/
abbrev Entries := List (String × Value)

/-- Dictionary lookup: the value stored under `n`, if any. -/
def getEntry : Entries → String → Option Value
  | [], _ => Option.none
  | kv :: rest, n => if kv.1 = n then Option.some kv.2 else getEntry rest n

/-- Python dict assignment `d[n] = v` / `setattr(self, n, v)`: overwrite in
place if the key is present (keys are unique in reachable states), else
append at the end (insertion order). -/
def setEntry : Entries → String → Value → Entries
  | [], n, v => [(n, v)]
  | kv :: rest, n, v => if kv.1 = n then (n, v) :: rest else kv :: setEntry rest n v

/-- The methods defined on class Config, visible to hasattr/getattr on every
instance. Dunder attributes inherited from object are elided: no claim
mentions them. -/
def configMethodNames : List String :=
  ["__init__", "_clean_name", "update_from_dict", "load_json",
   "set_param", "get_param", "has_param", "get_all_params"]

/-- `hasattr(self, name)`: instance dictionary first, then class attributes. -/
def hasattrE (es : Entries) (name : String) : Bool :=
  (getEntry es name).isSome || configMethodNames.contains name

/-- `getattr(self, name)`: instance dictionary shadows class methods;
Option.none models AttributeError. -/
def getattrE (es : Entries) (name : String) : Option Value :=
  match getEntry es name with
  | Option.some v => Option.some v
  | Option.none =>
      if configMethodNames.contains name then Option.some (Value.method name)
      else Option.none

/-- The character class of the regex in _clean_name,
left to right: a-z, A-Z, 0-9, underscore, dot, colon, slash, backslash
(the Python literal denotes the pattern with the doubled backslash escape
inside the class). re.findall finds a nonempty match iff some character of
the input lies outside this class. -/
def isAllowedChar (c : Char) : Bool :=
  ('a' ≤ c && c ≤ 'z') || ('A' ≤ c && c ≤ 'Z') || ('0' ≤ c && c ≤ '9') ||
  c == '_' || c == '.' || c == ':' || c == '/' || c == '\\'

/-- The while loop of _clean_name: while result.startswith("-"), drop the
first character. -/
def stripDashes : List Char → List Char
  | [] => []
  | c :: rest => if c = '-' then stripDashes rest else c :: rest

/-- Config._clean_name: strip leading dashes; if re.findall finds any
character outside the allowed class, return "", else return the stripped
string. -/
def _clean_name (name : String) : String :=
  let result := String.mk (stripDashes name.data)
  if result.data.all isAllowedChar then result else ""

/-- Python str.strip(): remove leading and trailing whitespace. (Python also
strips a few exotic Unicode spaces; the claims use ASCII keys only.) -/
def pyStrip (s : String) : String :=
  String.mk (((s.data.dropWhile Char.isWhitespace).reverse.dropWhile Char.isWhitespace).reverse)

/-- One iteration of the loop body of update_from_dict: clean the stripped
key; skip the entry if cleaning yields "", else assign unconditionally. -/
def mergeEntry (es : Entries) (kv : String × Value) : Entries :=
  let name := _clean_name (pyStrip kv.1)
  if name = "" then es else setEntry es name kv.2

/-- Config.update_from_dict: type-guard on dict, then iterate the entries in
order. Python iterates the keys of dict_data and reads dict_data[key];
since the keys of a Python dict are pairwise distinct, this equals folding
over the key/value pairs. Returns (result, new entries). -/
def update_from_dict (es : Entries) (dict_data : Value) : Bool × Entries :=
  match dict_data with
  | Value.dict kvs => (true, kvs.foldl mergeEntry es)
  | _ => (false, es)

/-- What the file system holds at a path. -/
inductive FileContent where
  | absent              -- os.path.isfile is false (no regular file there)
  | raises              -- regular file, but open/read/json.load raises
  | json (v : Value)    -- regular file whose contents parse to the value v

/-- os.path.isfile -/
def FileContent.isFile : FileContent → Bool
  | .absent => false
  | _ => true

abbrev FileSystem := String → FileContent

/-- A Python exception escaping to the caller. -/
inductive PyExn where
  | attributeError (name : String)

/-- Config.load_json. The validation failure prints a fixed message and
returns False. When open/read/parse raises, the except handler evaluates
self.log for its diagnostic print: if the instance has no "log" attribute
yet (the case during construction, before the final `self.log = ...`
assignment), that access itself raises AttributeError, which propagates.
On successful parse the result of update_from_dict is discarded and True
is returned. -/
def load_json (fs : FileSystem) (es : Entries) (filename : String) :
    Except PyExn (Bool × Entries) :=
  if filename = "" ∨ (fs filename).isFile = false then
    Except.ok (false, es)
  else
    match fs filename with
    | FileContent.json v => Except.ok (true, (update_from_dict es v).2)
    | _ =>
        if (getEntry es "log").isSome then Except.ok (false, es)
        else Except.error (PyExn.attributeError "log")

/-- The first step of Config.__init__: starting from an empty attribute
dictionary, merge the default argument if it is not None and is a dict. -/
def Config.initDefault (default : Option Value) : Entries :=
  match default with
  | Option.some d => if d.isDict then (update_from_dict [] d).2 else []
  | Option.none => []

/-- Config.__init__: merge the default dict if it is one, then load the JSON
file if a path is given, and finally assign self.log = "[Config] ". An
exception escaping load_json escapes construction. -/
def Config.init (fs : FileSystem) (default : Option Value)
    (json_file : Option String) : Except PyExn Entries :=
  match json_file with
  | Option.some f =>
      match load_json fs (Config.initDefault default) f with
      | Except.ok r => Except.ok (setEntry r.2 "log" (Value.str "[Config] "))
      | Except.error e => Except.error e
  | Option.none =>
      Except.ok (setEntry (Config.initDefault default) "log" (Value.str "[Config] "))

/-- Config.set_param: setattr(self, name, val) with the given name as-is, no
sanitization. setattr with a string name on a plain object never raises,
so the except handler is unreachable here. -/
def set_param (es : Entries) (name : String) (val : Value) : Entries :=
  setEntry es name val

/-- Config.get_param: if the attribute is absent, store the default first;
then return getattr(self, name). With a string name neither hasattr nor
setattr raises, so the except branch is unreachable; the getD default is
likewise never taken (after the conditional store the attribute exists). -/
def get_param (es : Entries) (name : String) (default : Value) :
    Value × Entries :=
  let es2 := if hasattrE es name then es else setEntry es name default
  ((getattrE es2 name).getD default, es2)

/-- Config.has_param: hasattr(self, name). -/
def has_param (es : Entries) (name : String) : Bool :=
  hasattrE es name

/-- Config.get_all_params: self.__dict__.copy(). At the level of contents the
copy equals the entries; the freshness of the copy (mutating it does not
touch the instance) is modelled by get_all_params_heap below. -/
def get_all_params (es : Entries) : Entries :=
  es

/-- A tiny heap of dictionary objects, for the aliasing content of
get_all_params: an address is an index into the list. -/
structure Heap where
  dicts : List Entries

/-- Dereference an address. -/
def Heap.getDict (h : Heap) (a : Nat) : Entries :=
  (h.dicts.getD a [])

/-- get_all_params in the heap model: self.__dict__.copy() allocates a fresh
dict object with the same top-level contents and returns its address. -/
def get_all_params_heap (h : Heap) (self : Nat) : Heap × Nat :=
  (⟨h.dicts ++ [h.getDict self]⟩, h.dicts.length)

/-- Mutate the dict object at address a: d[k] = v. -/
def dictSetKey (h : Heap) (a : Nat) (k : String) (v : Value) : Heap :=
  ⟨h.dicts.set a (setEntry (h.getDict a) k v)⟩

/-- Mutate the dict object at address a: del d[k] (replacing a top-level
key counts as setKey; removing one as delKey). -/
def dictDelKey (h : Heap) (a : Nat) (k : String) : Heap :=
  ⟨h.dicts.set a ((h.getDict a).filter (fun kv => !(kv.1 == k)))⟩

/- ---------- spec-side definitions (from the words of the spec) ---------- -/

/-- Spec-side character set of §4.2: ASCII letters, ASCII digits,
underscore, dot, colon, slash, backslash (Char.isAlpha and Char.isDigit
are the ASCII predicates). Stated independently of the regex translation
above; their agreement is proved. -/
def specAllowedChar (c : Char) : Bool :=
  c.isAlpha || c.isDigit || c == '_' || c == '.' || c == ':' || c == '/' || c == '\\'

/-- The name-sanitization predicate of §4.2 on a stored key: non-empty and
made only of allowed characters (such a key also has no leading dash, as
the dash is not an allowed character). -/
def sanitizedName (s : String) : Bool :=
  (!(s == "")) && s.data.all isAllowedChar

/-- The §3 invariant as a boolean: every key of the entries satisfies the
sanitization predicate. -/
def entriesClean (es : Entries) : Bool :=
  es.all (fun kv => sanitizedName kv.1)

/-- Spec-side description of what one source dict contributes at name n:
the value of the last pair whose stripped-and-sanitized key equals n. -/
def lastContribution : List (String × Value) → String → Option Value
  | [], _ => Option.none
  | kv :: rest, n =>
      match lastContribution rest n with
      | Option.some v => Option.some v
      | Option.none =>
          if _clean_name (pyStrip kv.1) = n then Option.some kv.2 else Option.none

/-- A file system with no files at all. -/
def fsEmpty : FileSystem := fun _ => FileContent.absent

/-- A file system with a single file whose contents do not parse as JSON. -/
def fsBroken : FileSystem := fun p =>
  if p = "broken.json" then FileContent.raises else FileContent.absent

/-- A file system with a single file parsing to the JSON array [1, 2, 3]. -/
def fsArray : FileSystem := fun p =>
  if p = "data.json" then
    FileContent.json (Value.list [Value.int 1, Value.int 2, Value.int 3])
  else FileContent.absent

/-- The attribute dictionary of a freshly constructed store Config(). -/
def freshStore : Entries := [("log", Value.str "[Config] ")]

/- ------------------------------ lemmas ------------------------------ -/

theorem getEntry_setEntry (es : Entries) (m n : String) (v : Value) :
    getEntry (setEntry es m v) n = if n = m then Option.some v else getEntry es n := by
  induction es with
  | nil =>
      simp only [setEntry, getEntry]
      by_cases h : m = n
      · subst h; simp
      · have h2 : ¬ (n = m) := fun hh => h hh.symm
        simp [h, h2]
  | cons kv rest ih =>
      simp only [setEntry]
      by_cases hk : kv.1 = m
      · simp only [if_pos hk, getEntry]
        by_cases hn : n = m
        · subst hn; simp
        · have hmn : ¬ (m = n) := fun hh => hn hh.symm
          have hkn : ¬ (kv.1 = n) := by rw [hk]; exact hmn
          simp [hmn, hn, hkn]
      · simp only [if_neg hk, getEntry, ih]
        by_cases hkn : kv.1 = n
        · have hnm : ¬ (n = m) := by rw [← hkn]; exact hk
          simp [hkn, hnm]
        · simp [hkn]

theorem mem_setEntry (es : Entries) (m : String) (v : Value)
    (kv : String × Value) (h : kv ∈ setEntry es m v) : kv ∈ es ∨ kv = (m, v) := by
  induction es with
  | nil =>
      simp only [setEntry, List.mem_singleton] at h
      exact Or.inr h
  | cons kv0 rest ih =>
      simp only [setEntry] at h
      by_cases hk : kv0.1 = m
      · rw [if_pos hk] at h
        rcases List.mem_cons.mp h with h1 | h1
        · exact Or.inr h1
        · exact Or.inl (List.mem_cons_of_mem _ h1)
      · rw [if_neg hk] at h
        rcases List.mem_cons.mp h with h1 | h1
        · exact Or.inl (h1 ▸ List.mem_cons_self _ _)
        · rcases ih h1 with h2 | h2
          · exact Or.inl (List.mem_cons_of_mem _ h2)
          · exact Or.inr h2

theorem self_mem_setEntry (es : Entries) (m : String) (v : Value) :
    (m, v) ∈ setEntry es m v := by
  induction es with
  | nil => simp [setEntry]
  | cons kv rest ih =>
      simp only [setEntry]
      by_cases hk : kv.1 = m
      · rw [if_pos hk]; exact List.mem_cons_self _ _
      · rw [if_neg hk]; exact List.mem_cons_of_mem _ ih

theorem isAllowedChar_eq_specAllowedChar (c : Char) :
    isAllowedChar c = specAllowedChar c := by
  rw [Bool.eq_iff_iff]
  simp only [isAllowedChar, specAllowedChar, Char.isAlpha, Char.isUpper,
    Char.isLower, Char.isDigit, Bool.or_eq_true, Bool.and_eq_true,
    decide_eq_true_eq, beq_iff_eq]
  tauto

theorem stripDashes_eq_dropWhile (l : List Char) :
    stripDashes l = l.dropWhile (fun c => c == '-') := by
  induction l with
  | nil => rfl
  | cons c rest ih =>
      simp only [stripDashes, List.dropWhile]
      by_cases h : c = '-'
      · simp [h, ih]
      · have hb : (c == '-') = false := by simp [h]
        simp [hb, h]

theorem clean_name_sanitized (s : String) (h : _clean_name s ≠ "") :
    sanitizedName (_clean_name s) = true := by
  unfold _clean_name at h ⊢
  by_cases hall : (String.mk (stripDashes s.data)).data.all isAllowedChar
  · simp only [if_pos hall]
    simp only [if_pos hall] at h
    simp [sanitizedName, hall, h]
  · simp only [if_neg hall] at h
    exact absurd rfl h

theorem getEntry_foldl_mergeEntry (kvs : List (String × Value)) (es : Entries)
    (n : String) (hn : n ≠ "") :
    getEntry (kvs.foldl mergeEntry es) n =
      match lastContribution kvs n with
      | Option.some v => Option.some v
      | Option.none => getEntry es n := by
  induction kvs generalizing es with
  | nil => rfl
  | cons kv rest ih =>
      simp only [List.foldl_cons, lastContribution]
      rw [ih (mergeEntry es kv)]
      cases hlc : lastContribution rest n with
      | some v => rfl
      | none =>
          simp only []
          unfold mergeEntry
          by_cases hc : _clean_name (pyStrip kv.1) = ""
          · have hne : ¬ ("" = n) := fun hh => hn hh.symm
            simp [hc, hne]
          · simp only [if_neg hc]
            rw [getEntry_setEntry]
            by_cases he : _clean_name (pyStrip kv.1) = n
            · simp only [if_pos he, if_pos he.symm]
            · have he2 : ¬ (n = _clean_name (pyStrip kv.1)) := fun hh => he hh.symm
              simp only [if_neg he, if_neg he2]

theorem entriesClean_setEntry (es : Entries) (m : String) (v : Value)
    (hm : sanitizedName m = true) (h : entriesClean es = true) :
    entriesClean (setEntry es m v) = true := by
  simp only [entriesClean, List.all_eq_true] at h ⊢
  intro kv hkv
  rcases mem_setEntry es m v kv hkv with h1 | h1
  · exact h kv h1
  · rw [h1]; exact hm

theorem entriesClean_mergeEntry (es : Entries) (kv : String × Value)
    (h : entriesClean es = true) : entriesClean (mergeEntry es kv) = true := by
  unfold mergeEntry
  by_cases hc : _clean_name (pyStrip kv.1) = ""
  · simp [hc, h]
  · simp only [if_neg hc]
    exact entriesClean_setEntry _ _ _ (clean_name_sanitized _ hc) h

theorem entriesClean_foldl (kvs : List (String × Value)) (es : Entries)
    (h : entriesClean es = true) :
    entriesClean (kvs.foldl mergeEntry es) = true := by
  induction kvs generalizing es with
  | nil => exact h
  | cons kv rest ih => exact ih _ (entriesClean_mergeEntry es kv h)

theorem entriesClean_update_from_dict (es : Entries) (v : Value)
    (h : entriesClean es = true) :
    entriesClean (update_from_dict es v).2 = true := by
  cases v with
  | dict kvs => exact entriesClean_foldl kvs es h
  | none => exact h
  | bool b => exact h
  | int n => exact h
  | str s => exact h
  | list xs => exact h
  | method s => exact h

theorem entriesClean_load_json (fs : FileSystem) (es : Entries) (p : String)
    (r : Bool × Entries) (h : entriesClean es = true)
    (hl : load_json fs es p = Except.ok r) : entriesClean r.2 = true := by
  unfold load_json at hl
  by_cases hv : p = "" ∨ (fs p).isFile = false
  · rw [if_pos hv] at hl
    cases hl
    exact h
  · rw [if_neg hv] at hl
    cases hfs : fs p with
    | json v =>
        rw [hfs] at hl
        cases hl
        exact entriesClean_update_from_dict es v h
    | absent =>
        rw [hfs] at hl
        by_cases hlog : (getEntry es "log").isSome
        · rw [if_pos hlog] at hl; cases hl; exact h
        · rw [if_neg hlog] at hl; simp at hl
    | raises =>
        rw [hfs] at hl
        by_cases hlog : (getEntry es "log").isSome
        · rw [if_pos hlog] at hl; cases hl; exact h
        · rw [if_neg hlog] at hl; simp at hl

theorem entriesClean_initDefault (d : Option Value) :
    entriesClean (Config.initDefault d) = true := by
  cases d with
  | none => rfl
  | some dd =>
      unfold Config.initDefault
      by_cases hd : dd.isDict
      · simp only [if_pos hd]
        exact entriesClean_update_from_dict [] dd rfl
      · simp only [if_neg hd]; rfl

theorem sanitizedName_log : sanitizedName "log" = true := rfl

theorem Config.init_none_eq (fs : FileSystem) (d : Option Value) :
    Config.init fs d Option.none =
      Except.ok (setEntry (Config.initDefault d) "log" (Value.str "[Config] ")) := rfl

theorem Config.init_some_eq (fs : FileSystem) (d : Option Value) (f : String) :
    Config.init fs d (Option.some f) =
      match load_json fs (Config.initDefault d) f with
      | Except.ok r => Except.ok (setEntry r.2 "log" (Value.str "[Config] "))
      | Except.error e => Except.error e := rfl

theorem entriesClean_init (fs : FileSystem) (d : Option Value)
    (jf : Option String) (es : Entries)
    (h : Config.init fs d jf = Except.ok es) : entriesClean es = true := by
  cases jf with
  | none =>
      rw [Config.init_none_eq] at h
      cases h
      exact entriesClean_setEntry _ _ _ sanitizedName_log (entriesClean_initDefault d)
  | some f =>
      rw [Config.init_some_eq] at h
      cases hl : load_json fs (Config.initDefault d) f with
      | ok r =>
          rw [hl] at h
          cases h
          exact entriesClean_setEntry _ _ _ sanitizedName_log
            (entriesClean_load_json fs _ f r (entriesClean_initDefault d) hl)
      | error e =>
          rw [hl] at h
          simp at h

theorem update_from_dict_not_dict (es : Entries) (v : Value)
    (hv : v.isDict = false) : update_from_dict es v = (false, es) := by
  cases v with
  | dict kvs => simp [Value.isDict] at hv
  | none => rfl
  | bool b => rfl
  | int n => rfl
  | str s => rfl
  | list xs => rfl
  | method s => rfl

theorem get_param_of_present (es : Entries) (name : String) (v : Value)
    (dflt : Value) (h : getEntry es name = Option.some v) :
    get_param es name dflt = (v, es) := by
  have hh : hasattrE es name = true := by
    unfold hasattrE; rw [h]; rfl
  unfold get_param getattrE
  rw [if_pos hh]
  simp [h]

theorem listGetD_append_left {α : Type} (l1 l2 : List α) (i : Nat) (d : α)
    (h : i < l1.length) : (l1 ++ l2).getD i d = l1.getD i d := by
  induction l1 generalizing i with
  | nil => exact absurd h (by simp)
  | cons a l ih =>
      cases i with
      | zero => rfl
      | succ j =>
          have hj : j < l.length := Nat.lt_of_succ_lt_succ h
          exact ih j hj

theorem listGetD_concat_length {α : Type} (l : List α) (x : α) (d : α) :
    (l ++ [x]).getD l.length d = x := by
  induction l with
  | nil => rfl
  | cons a l ih => exact ih

theorem listGetD_set_ne {α : Type} (l : List α) (j i : Nat) (y : α) (d : α)
    (h : j ≠ i) : (l.set j y).getD i d = l.getD i d := by
  induction l generalizing i j with
  | nil => rfl
  | cons a l ih =>
      cases j with
      | zero =>
          cases i with
          | zero => exact absurd rfl h
          | succ i2 => rfl
      | succ j2 =>
          cases i with
          | zero => rfl
          | succ i2 =>
              have hj : j2 ≠ i2 := fun hh => h (by rw [hh])
              simpa [List.getD] using ih j2 i2 hj

/- --------------------------- claim theorems --------------------------- -/

/-- C1: the claim fails on the code. Constructing with no default mapping and
a path to an existing regular file whose contents cannot be read or parsed
as JSON raises AttributeError out of the constructor: the except handler
of load_json evaluates self.log for its diagnostic print, but __init__
assigns self.log only after the load, so the attribute does not exist yet
and the access itself raises. -/
theorem construction_raises_on_unparsable_file :
    Config.init fsBroken Option.none (Option.some "broken.json") =
      Except.error (PyExn.attributeError "log") := rfl

/-- C2 counterexample: load_json on an existing file containing the JSON
array [1, 2, 3] returns true, not false as claimed: the false result of
the rejected merge is discarded and load_json returns True unconditionally
after a successful parse. The entries are left unchanged. -/
theorem load_json_array_not_false :
    load_json fsArray freshStore "data.json" = Except.ok (true, freshStore) ∧
    (update_from_dict freshStore
      (Value.list [Value.int 1, Value.int 2, Value.int 3])).1 = false :=
  ⟨rfl, rfl⟩

/-- C2 amended: on an existing readable file whose contents parse as JSON
with a non-object top level, load_json returns true, because it discards
the false result of the rejecting merge step; the entries are unchanged. -/
theorem load_json_non_object_spec (fs : FileSystem) (es : Entries) (p : String)
    (v : Value) (hp : p ≠ "") (hf : fs p = FileContent.json v)
    (hv : v.isDict = false) :
    load_json fs es p = Except.ok (true, es) := by
  unfold load_json
  have hfile : (fs p).isFile = true := by rw [hf]; rfl
  have hcond : ¬ (p = "" ∨ (fs p).isFile = false) := by
    intro hor
    rcases hor with h1 | h1
    · exact hp h1
    · rw [hfile] at h1; exact Bool.noConfusion h1
  rw [if_neg hcond, hf]
  show Except.ok (true, (update_from_dict es v).2) = Except.ok (true, es)
  rw [update_from_dict_not_dict es v hv]

/-- C2 amended, witness at a concrete input. -/
theorem load_json_non_object_spec_witness :
    load_json fsArray freshStore "data.json" = Except.ok (true, freshStore) :=
  load_json_non_object_spec fsArray freshStore "data.json"
    (Value.list [Value.int 1, Value.int 2, Value.int 3])
    (by decide) rfl rfl

/-- C3 counterexample: load_json on a nonexistent path does return false
without mutating the store, but the exportAll of a freshly constructed
store is not an empty mapping: construction always stores the diagnostic
prefix under the key "log". -/
theorem fresh_store_export_not_empty :
    Config.init fsEmpty Option.none Option.none = Except.ok freshStore ∧
    load_json fsEmpty freshStore "missing.json" = Except.ok (false, freshStore) ∧
    get_all_params freshStore ≠ [] := by
  refine ⟨rfl, rfl, ?_⟩
  intro h
  exact List.noConfusion h

/-- C3 amended: for a freshly constructed store with no default mapping and
no JSON file, load_json on a path that does not name an existing regular
file returns false without mutating the entries, and exportAll of the
fresh store is the one-entry mapping holding only the diagnostic prefix
entry log. -/
theorem load_json_missing_file_spec (fs : FileSystem) (es : Entries)
    (p : String) (h : (fs p).isFile = false) :
    load_json fs es p = Except.ok (false, es) ∧
    Config.init fs Option.none Option.none = Except.ok freshStore ∧
    get_all_params freshStore = freshStore := by
  refine ⟨?_, rfl, rfl⟩
  unfold load_json
  rw [if_pos (Or.inr h)]

/-- C3 amended, witness at a concrete input. -/
theorem load_json_missing_file_spec_witness :
    load_json fsEmpty freshStore "missing.json" = Except.ok (false, freshStore) ∧
    Config.init fsEmpty Option.none Option.none = Except.ok freshStore ∧
    get_all_params freshStore = freshStore :=
  load_json_missing_file_spec fsEmpty freshStore "missing.json" rfl

/-- C4 counterexample: set_param stores the caller's name without any
sanitization, so after set_param with the name " " (a single space) the
entries of a freshly constructed store contain a key that violates the
name-sanitization predicate; the claimed invariant does not survive
set_param (nor get_param, which stores its name the same way). -/
theorem set_param_breaks_sanitization :
    (getEntry (set_param freshStore " " (Value.int 1)) " ").isSome = true ∧
    sanitizedName " " = false ∧
    entriesClean (set_param freshStore " " (Value.int 1)) = false :=
  ⟨rfl, rfl, rfl⟩

/-- C4 amended: the sanitization invariant is established by construction and
preserved by update_from_dict and load_json; set_param and get_param
bypass sanitization, so the invariant is only guaranteed for stores
manipulated exclusively through construction, merge and load. -/
theorem sanitization_invariant_merge_ops (es : Entries)
    (h : entriesClean es = true) :
    (∀ v, entriesClean (update_from_dict es v).2 = true) ∧
    (∀ fs p r, load_json fs es p = Except.ok r → entriesClean r.2 = true) ∧
    (∀ fs d jf es2, Config.init fs d jf = Except.ok es2 →
      entriesClean es2 = true) :=
  ⟨fun v => entriesClean_update_from_dict es v h,
   fun fs p r hl => entriesClean_load_json fs es p r h hl,
   fun fs d jf es2 hi => entriesClean_init fs d jf es2 hi⟩

/-- C4 amended, witness at a concrete input. -/
theorem sanitization_invariant_merge_ops_witness :
    entriesClean (update_from_dict freshStore
      (Value.dict [("-x", Value.int 1), ("bad key", Value.int 2)])).2 = true :=
  (sanitization_invariant_merge_ops freshStore rfl).1
    (Value.dict [("-x", Value.int 1), ("bad key", Value.int 2)])

/-- C5: _clean_name strips all leading dash characters; if every remaining
character is an ASCII letter, ASCII digit, underscore, dot, colon, slash
or backslash it returns the stripped string unchanged, and otherwise it
returns the empty string; in particular it maps "" and "---" to "". -/
theorem clean_name_characterization (s : String) :
    _clean_name s =
      (if (s.data.dropWhile (fun c => c == '-')).all specAllowedChar
       then String.mk (s.data.dropWhile (fun c => c == '-')) else "") ∧
    _clean_name "" = "" ∧ _clean_name "---" = "" := by
  refine ⟨?_, rfl, rfl⟩
  unfold _clean_name
  rw [stripDashes_eq_dropWhile s.data, funext isAllowedChar_eq_specAllowedChar]

/-- C6: get_param is get-or-initialize: when the requested name is absent it
first stores the default under that name and then returns it, so the call
returns the default and a subsequent has_param of the name is true. -/
theorem get_param_initializes (es : Entries) (name : String) (dflt : Value)
    (h : has_param es name = false) :
    get_param es name dflt = (dflt, setEntry es name dflt) ∧
    has_param (get_param es name dflt).2 name = true := by
  have hset : getEntry (setEntry es name dflt) name = Option.some dflt := by
    rw [getEntry_setEntry]; simp
  have hfirst : get_param es name dflt = (dflt, setEntry es name dflt) := by
    unfold has_param at h
    simp [get_param, getattrE, h, hset]
  refine ⟨hfirst, ?_⟩
  rw [hfirst]
  unfold has_param hasattrE
  rw [hset]
  rfl

/-- C6, witness: on a fresh store, get_param of the absent name "missing"
with default 42 returns 42 and afterwards has_param "missing" is true. -/
theorem get_param_initializes_witness :
    has_param freshStore "missing" = false ∧
    (get_param freshStore "missing" (Value.int 42) =
        (Value.int 42, setEntry freshStore "missing" (Value.int 42)) ∧
      has_param (get_param freshStore "missing" (Value.int 42)).2 "missing" = true) :=
  ⟨rfl, get_param_initializes freshStore "missing" (Value.int 42) rfl⟩

/-- C7: the construction merge order is fixed, defaults first and then the
file, so on a conflicting key the value from the JSON file wins:
constructing with default mapping a -> v1 and a file whose JSON object
maps a -> v2 yields a store where get_param of "a" returns v2. -/
theorem construction_file_wins (v1 v2 : Value) :
    ∃ es, Config.init
        (fun p => if p = "cfg.json"
                  then FileContent.json (Value.dict [("a", v2)])
                  else FileContent.absent)
        (Option.some (Value.dict [("a", v1)]))
        (Option.some "cfg.json") = Except.ok es ∧
      (get_param es "a" Value.none).1 = v2 :=
  ⟨_, rfl, rfl⟩

/-- C8: update_from_dict returns false and leaves the entries unchanged on a
non-mapping argument; on any mapping it returns true, and the resulting
entry at any non-empty name n holds the value of the last source pair
whose stripped-and-sanitized key is n (keys sanitizing to the empty
string being skipped, later duplicates overwriting earlier ones), while
names no source pair contributes to keep their old value. -/
theorem update_from_dict_spec (es : Entries) (v : Value) :
    (update_from_dict es v).1 = v.isDict ∧
    (v.isDict = false → update_from_dict es v = (false, es)) ∧
    (∀ kvs, v = Value.dict kvs → ∀ n, n ≠ "" →
      getEntry (update_from_dict es v).2 n =
        match lastContribution kvs n with
        | Option.some w => Option.some w
        | Option.none => getEntry es n) := by
  refine ⟨?_, update_from_dict_not_dict es v, ?_⟩
  · cases v <;> rfl
  · intro kvs hkv n hn
    subst hkv
    exact getEntry_foldl_mergeEntry kvs es n hn

/-- C8, witness: merging the dict with keys "-x", "bad key", " x " into a
fresh store stores 3 under "x": "-x" is dash-stripped, "bad key" is
skipped, " x " is trimmed and overwrites the earlier value. -/
theorem update_from_dict_spec_witness :
    getEntry (update_from_dict freshStore
      (Value.dict [("-x", Value.int 1), ("bad key", Value.int 2),
                   (" x ", Value.int 3)])).2 "x" = Option.some (Value.int 3) := by
  have h := (update_from_dict_spec freshStore
    (Value.dict [("-x", Value.int 1), ("bad key", Value.int 2),
                 (" x ", Value.int 3)])).2.2
    [("-x", Value.int 1), ("bad key", Value.int 2), (" x ", Value.int 3)]
    rfl "x" (by decide)
  rw [h]
  rfl

/-- C9: get_all_params returns a copy: in the heap model the returned
dictionary is a fresh object distinct from the instance dictionary, holds
the same top-level contents, and setting or deleting top-level keys on it
leaves the instance dictionary, and therefore all later get_param and
has_param results on the store, unchanged. -/
theorem get_all_params_returns_copy (h : Heap) (self : Nat)
    (hs : self < h.dicts.length) :
    (get_all_params_heap h self).2 ≠ self ∧
    Heap.getDict (get_all_params_heap h self).1 (get_all_params_heap h self).2 =
      get_all_params (Heap.getDict h self) ∧
    (∀ k v, Heap.getDict (dictSetKey (get_all_params_heap h self).1
        (get_all_params_heap h self).2 k v) self = Heap.getDict h self) ∧
    (∀ k, Heap.getDict (dictDelKey (get_all_params_heap h self).1
        (get_all_params_heap h self).2 k) self = Heap.getDict h self) ∧
    (∀ k v name dflt,
      get_param (Heap.getDict (dictSetKey (get_all_params_heap h self).1
        (get_all_params_heap h self).2 k v) self) name dflt =
      get_param (Heap.getDict h self) name dflt) ∧
    (∀ k v name,
      has_param (Heap.getDict (dictSetKey (get_all_params_heap h self).1
        (get_all_params_heap h self).2 k v) self) name =
      has_param (Heap.getDict h self) name) := by
  have hne : h.dicts.length ≠ self := fun hh => absurd hs (by rw [hh]; exact Nat.lt_irrefl self)
  have hframe : ∀ es2, Heap.getDict
      ⟨((get_all_params_heap h self).1.dicts.set (get_all_params_heap h self).2 es2)⟩ self =
      Heap.getDict h self := by
    intro es2
    unfold Heap.getDict get_all_params_heap
    rw [listGetD_set_ne _ _ _ _ _ hne]
    exact listGetD_append_left h.dicts _ self [] hs
  have hset : ∀ k v, Heap.getDict (dictSetKey (get_all_params_heap h self).1
      (get_all_params_heap h self).2 k v) self = Heap.getDict h self := by
    intro k v
    exact hframe _
  refine ⟨fun hh => hne hh, ?_, hset, fun k => hframe _, ?_, ?_⟩
  · unfold Heap.getDict get_all_params_heap get_all_params
    exact listGetD_concat_length h.dicts _ []
  · intro k v name dflt
    rw [hset k v]
  · intro k v name
    rw [hset k v]

/-- C9, witness at a concrete one-dict heap. -/
theorem get_all_params_returns_copy_witness :
    (get_all_params_heap ⟨[[("a", Value.int 1)]]⟩ 0).2 ≠ 0 ∧
    Heap.getDict (get_all_params_heap ⟨[[("a", Value.int 1)]]⟩ 0).1
        (get_all_params_heap ⟨[[("a", Value.int 1)]]⟩ 0).2 =
      get_all_params (Heap.getDict ⟨[[("a", Value.int 1)]]⟩ 0) ∧
    (∀ k v, Heap.getDict (dictSetKey (get_all_params_heap ⟨[[("a", Value.int 1)]]⟩ 0).1
        (get_all_params_heap ⟨[[("a", Value.int 1)]]⟩ 0).2 k v) 0 =
      Heap.getDict ⟨[[("a", Value.int 1)]]⟩ 0) ∧
    (∀ k, Heap.getDict (dictDelKey (get_all_params_heap ⟨[[("a", Value.int 1)]]⟩ 0).1
        (get_all_params_heap ⟨[[("a", Value.int 1)]]⟩ 0).2 k) 0 =
      Heap.getDict ⟨[[("a", Value.int 1)]]⟩ 0) ∧
    (∀ k v name dflt,
      get_param (Heap.getDict (dictSetKey (get_all_params_heap ⟨[[("a", Value.int 1)]]⟩ 0).1
        (get_all_params_heap ⟨[[("a", Value.int 1)]]⟩ 0).2 k v) 0) name dflt =
      get_param (Heap.getDict ⟨[[("a", Value.int 1)]]⟩ 0) name dflt) ∧
    (∀ k v name,
      has_param (Heap.getDict (dictSetKey (get_all_params_heap ⟨[[("a", Value.int 1)]]⟩ 0).1
        (get_all_params_heap ⟨[[("a", Value.int 1)]]⟩ 0).2 k v) 0) name =
      has_param (Heap.getDict ⟨[[("a", Value.int 1)]]⟩ 0) name) :=
  get_all_params_returns_copy ⟨[[("a", Value.int 1)]]⟩ 0 (by decide)

/-- C10: construction assigns the diagnostic prefix entry "log" as its final
step, after both merges: every successful construction, whatever the
default mapping or JSON file contributed under "log", yields a store
whose "log" entry is the string "[Config] ", where has_param "log" is
true, and whose exportAll contains the log entry. -/
theorem log_assigned_last (fs : FileSystem) (d : Option Value)
    (jf : Option String) (es : Entries)
    (h : Config.init fs d jf = Except.ok es) :
    getEntry es "log" = Option.some (Value.str "[Config] ") ∧
    (∀ dflt, (get_param es "log" dflt).1 = Value.str "[Config] ") ∧
    has_param es "log" = true ∧
    ("log", Value.str "[Config] ") ∈ get_all_params es := by
  have hform : ∃ es2, es = setEntry es2 "log" (Value.str "[Config] ") := by
    cases jf with
    | none =>
        rw [Config.init_none_eq] at h
        cases h
        exact ⟨_, rfl⟩
    | some f =>
        rw [Config.init_some_eq] at h
        cases hl : load_json fs (Config.initDefault d) f with
        | ok r =>
            rw [hl] at h
            cases h
            exact ⟨_, rfl⟩
        | error e =>
            rw [hl] at h
            exact absurd h (by simp)
  obtain ⟨es2, rfl⟩ := hform
  have hlog : getEntry (setEntry es2 "log" (Value.str "[Config] ")) "log" =
      Option.some (Value.str "[Config] ") := by
    rw [getEntry_setEntry]; simp
  refine ⟨hlog, ?_, ?_, self_mem_setEntry es2 "log" (Value.str "[Config] ")⟩
  · intro dflt
    rw [get_param_of_present _ _ _ dflt hlog]
  · unfold has_param hasattrE
    rw [hlog]
    rfl

/-- C10, witness: the fresh store of Config() with no arguments. -/
theorem log_assigned_last_witness :
    getEntry freshStore "log" = Option.some (Value.str "[Config] ") ∧
    (∀ dflt, (get_param freshStore "log" dflt).1 = Value.str "[Config] ") ∧
    has_param freshStore "log" = true ∧
    ("log", Value.str "[Config] ") ∈ get_all_params freshStore :=
  log_assigned_last fsEmpty Option.none Option.none freshStore rfl

end KaggleConfig
